import Mathlib

/-
Verification of the lexical scanner of a small C-subset compiler.

Source embedded here: `fn lexer` in `src/src/main.rs` (lines 41-149), the
character-by-character scanning loop.  The file-opening/reading prologue of
`lexer` is I/O glue; the scanner proper operates on the in-memory contents,
modelled as a `List Char` (a Rust `String` is a sequence of `char`s, and the
loop walks a `Peekable<Chars>`).

Each iteration of the Rust `while let Some(&c) = chars.peek()` loop is
embedded as `scanStep c cs`, taking the peeked character `c` and the rest of
the stream `cs`, and returning either a lexical error or the (at most one)
token the iteration pushes together with the remaining stream.  `scan`
iterates `scanStep` to the end of the input.

Character-class predicates: the Rust code uses `char::is_numeric`,
`char::is_alphabetic` and `char::is_alphanumeric`, which are Unicode-general;
this model restricts them to their ASCII fragments (on which they agree with
the Unicode definitions), matching the ASCII token vocabulary of the language
subset.  The entry guards of the numeric and identifier rules are the ASCII
range patterns `'0'..='9'` and `'a'..='z' | 'A'..='Z' | '_'` verbatim from
the source.
-/

namespace CLexer

/-- The token type of `src/src/main.rs` (`enum Token`, lines 7-19).  The Rust
`String` payloads of `Identifier` and `Constant` are modelled as `List Char`. -/
inductive Token where
  | Identifier (name : List Char)
  | Constant (digits : List Char)
  | IntKeyword
  | VoidKeyword
  | ReturnKeyword
  | OpenParenthesis
  | CloseParenthesis
  | OpenBrace
  | CloseBrace
  | Semicolon
deriving Repr, DecidableEq

/-- The lexical errors of `fn lexer`, one constructor per `return Err(...)`
site of the scanning loop (the Rust code carries formatted strings; the
payloads here record the data interpolated into each message):
* `numericFollowedByIdent`: line 80, "Identifiers cannot start with a number"
  — a digit run `num` immediately followed by a letter or underscore `next`;
* `identifierStartsWithNumber`: line 101, "Identifiers cannot start with a
  number" — the defensive first-character check on a captured identifier;
* `standaloneUnderscore`: line 106, "Standalone underscore is not a valid
  identifier";
* `invalidIdentifier`: line 111, "Invalid identifier" — the defensive
  illegal-character check;
* `unhandledSlash`: line 141, "Unhandled token" for a bare slash;
* `invalidCharacter`: line 146, "Invalid character". -/
inductive LexError where
  | numericFollowedByIdent (num : List Char) (next : Char)
  | identifierStartsWithNumber (ident : List Char)
  | standaloneUnderscore
  | invalidIdentifier (ident : List Char)
  | unhandledSlash
  | invalidCharacter (c : Char)
deriving Repr, DecidableEq

/-- The error taxonomy of the specification (§7). -/
inductive ErrorCategory where
  | MalformedNumericLiteral
  | InvalidIdentifier
  | UnsupportedOperator
  | InvalidCharacter
deriving Repr, DecidableEq

/-- Spec category of each error site of the code.  `identifierStartsWithNumber`
(the unreachable defensive check on the first character of a captured
identifier) is an identifier-shape complaint and is filed under
`InvalidIdentifier`. -/
def LexError.category : LexError → ErrorCategory
  | .numericFollowedByIdent _ _ => .MalformedNumericLiteral
  | .identifierStartsWithNumber _ => .InvalidIdentifier
  | .standaloneUnderscore => .InvalidIdentifier
  | .invalidIdentifier _ => .InvalidIdentifier
  | .unhandledSlash => .UnsupportedOperator
  | .invalidCharacter _ => .InvalidCharacter

/-- Rust `char::is_numeric`, ASCII fragment: `'0'` (48) to `'9'` (57). -/
def rustIsNumeric (c : Char) : Bool :=
  decide (48 ≤ c.toNat ∧ c.toNat ≤ 57)

/-- Rust `char::is_alphabetic`, ASCII fragment: `'a'`-`'z'` (97-122) or
`'A'`-`'Z'` (65-90). -/
def rustIsAlphabetic (c : Char) : Bool :=
  decide ((97 ≤ c.toNat ∧ c.toNat ≤ 122) ∨ (65 ≤ c.toNat ∧ c.toNat ≤ 90))

/-- Rust `char::is_alphanumeric` = alphabetic or numeric. -/
def rustIsAlphanumeric (c : Char) : Bool :=
  rustIsAlphabetic c || rustIsNumeric c

/-- The guard of the identifier match arm, line 86: `'a'..='z' | 'A'..='Z' | '_'`. -/
def isIdentStart (c : Char) : Bool :=
  rustIsAlphabetic c || c == '_'

/-- The continuation condition of the identifier-consumption loop, line 89:
`d.is_alphanumeric() || d == '_'`. -/
def isIdentChar (c : Char) : Bool :=
  rustIsAlphanumeric c || c == '_'

/-- The whitespace match arm, line 43: `' ' | '\n' | '\t'`. -/
def isWhitespaceChar (c : Char) : Bool :=
  c == ' ' || c == '\n' || c == '\t'

/-- Line-comment skipping, lines 126-131: consume characters until a `'\n'` is
peeked (the newline itself is left for the outer loop) or the input ends. -/
def skipLineComment : List Char → List Char
  | [] => []
  | c :: cs => if c = '\n' then c :: cs else skipLineComment cs

/-- Block-comment skipping, lines 134-139: while the stream is non-empty,
consume one character; if it was `'*'` and the next character is `'/'`,
consume the `'/'` and stop.  Reaching the end of input stops silently. -/
def skipBlockComment : List Char → List Char
  | [] => []
  | c :: cs => if c = '*' ∧ cs.head? = some '/' then cs.tail else skipBlockComment cs

/-- Whether the character stream contains a closing `*/` as the block-comment
loop of lines 134-139 would find it: a `'*'` immediately followed by `'/'`. -/
def hasTerminator : List Char → Bool
  | [] => false
  | c :: cs => if c = '*' ∧ cs.head? = some '/' then true else hasTerminator cs

/-- Classification of a captured identifier lexeme, lines 99-120.  The
captured text is always of the form `first :: tl` (the match-arm character is
consumed by the first iteration of the inner loop), so the classification is
embedded as a function of the head and tail; `ident.chars().next().unwrap()`
of line 100 is `first`.
* line 100: error if the first character is numeric;
* line 105: error if the text is exactly `"_"`;
* line 110: error if any character is outside `is_alphanumeric`/`'_'`;
* lines 115-119: keyword lookup by exact match, else `Identifier`. -/
def classifyIdent (first : Char) (tl : List Char) : Except LexError Token :=
  -- `ident` below abbreviates the captured text `first :: tl`
  if rustIsNumeric first then
    .error (.identifierStartsWithNumber (first :: tl))
  else if first :: tl = ['_'] then
    .error .standaloneUnderscore
  else if (first :: tl).any (fun ch => !(rustIsAlphanumeric ch || ch == '_')) then
    .error (.invalidIdentifier (first :: tl))
  else if first :: tl = "int".data then .ok .IntKeyword
  else if first :: tl = "void".data then .ok .VoidKeyword
  else if first :: tl = "return".data then .ok .ReturnKeyword
  else .ok (.Identifier (first :: tl))

/-- One iteration of the scanning loop, lines 41-148: `c` is the peeked
character, `cs` the stream after it.  Returns the token pushed by the
iteration (if any) and the remaining stream, or the lexical error.
* whitespace and punctuation: lines 43-65;
* `'0'..='9'` (line 67): the digit run is `c` plus the maximal `is_numeric`
  prefix of `cs` (the first inner-loop iteration consumes `c` itself, since
  the arm guard implies the loop guard); then one character is peeked and the
  run is rejected if it is a letter or `_` (lines 78-82);
* `'a'..='z' | 'A'..='Z' | '_'` (line 86): the captured lexeme is `c` plus
  the maximal `is_alphanumeric`/`'_'` prefix of `cs`, then classified;
* `'/'` (line 122): the `/` is consumed and the next character peeked; if the
  stream ended, the `if let Some(&next)` of line 124 is skipped and nothing
  happens; `/` starts a line comment, `*` a block comment, anything else is
  an error;
* any other character: error (line 146). -/
def scanStep (c : Char) (cs : List Char) : Except LexError (Option Token × List Char) :=
  if isWhitespaceChar c then .ok (none, cs)
  else if c == '(' then .ok (some .OpenParenthesis, cs)
  else if c == ')' then .ok (some .CloseParenthesis, cs)
  else if c == '{' then .ok (some .OpenBrace, cs)
  else if c == '}' then .ok (some .CloseBrace, cs)
  else if c == ';' then .ok (some .Semicolon, cs)
  else if rustIsNumeric c then
    -- `num` is `c :: cs.takeWhile rustIsNumeric`, `rest` is `cs.dropWhile rustIsNumeric`
    match (cs.dropWhile rustIsNumeric).head? with
    | some next =>
      if rustIsAlphabetic next || next == '_' then
        .error (.numericFollowedByIdent (c :: cs.takeWhile rustIsNumeric) next)
      else
        .ok (some (.Constant (c :: cs.takeWhile rustIsNumeric)), cs.dropWhile rustIsNumeric)
    | none => .ok (some (.Constant (c :: cs.takeWhile rustIsNumeric)), cs.dropWhile rustIsNumeric)
  else if isIdentStart c then
    match classifyIdent c (cs.takeWhile isIdentChar) with
    | .error e => .error e
    | .ok t => .ok (some t, cs.dropWhile isIdentChar)
  else if c == '/' then
    match cs with
    | [] => .ok (none, [])
    | next :: csTail =>
      if next == '/' then .ok (none, skipLineComment (next :: csTail))
      else if next == '*' then .ok (none, skipBlockComment csTail)
      else .error .unhandledSlash
  else .error (.invalidCharacter c)

theorem skipLineComment_length_le (l : List Char) : (skipLineComment l).length ≤ l.length := by
  induction l with
  | nil => simp [skipLineComment]
  | cons c cs ih =>
    simp only [skipLineComment]
    split
    · simp
    · exact Nat.le_succ_of_le ih

theorem skipBlockComment_length_le (l : List Char) : (skipBlockComment l).length ≤ l.length := by
  induction l with
  | nil => simp [skipBlockComment]
  | cons c cs ih =>
    simp only [skipBlockComment]
    split
    · have htl : cs.tail.length ≤ cs.length := by cases cs <;> simp
      exact Nat.le_succ_of_le htl
    · exact Nat.le_succ_of_le ih

theorem dropWhile_length_le (p : Char → Bool) (l : List Char) :
    (l.dropWhile p).length ≤ l.length := by
  induction l with
  | nil => simp
  | cons c cs ih =>
    rw [List.dropWhile_cons]
    split
    · exact Nat.le_succ_of_le ih
    · simp

theorem char_beq_false_of_toNat_ne {c d : Char} (h : c.toNat ≠ d.toNat) : (c == d) = false := by
  simp only [beq_eq_false_iff_ne, ne_eq]
  intro he
  exact h (he ▸ rfl)

/-- A digit (the `'0'..='9'` match arm) matches none of the match arms that
precede it in the `match c` of line 42. -/
theorem numeric_entry {c : Char} (h : rustIsNumeric c = true) :
    isWhitespaceChar c = false ∧ (c == '(') = false ∧ (c == ')') = false ∧
    (c == '{') = false ∧ (c == '}') = false ∧ (c == ';') = false := by
  have hn : 48 ≤ c.toNat ∧ c.toNat ≤ 57 := by simpa [rustIsNumeric] using h
  have e1 : (' ').toNat = 32 := rfl
  have e2 : ('\n').toNat = 10 := rfl
  have e3 : ('\t').toNat = 9 := rfl
  have e4 : ('(').toNat = 40 := rfl
  have e5 : (')').toNat = 41 := rfl
  have e6 : ('{').toNat = 123 := rfl
  have e7 : ('}').toNat = 125 := rfl
  have e8 : (';').toNat = 59 := rfl
  refine ⟨?_, ?_, ?_, ?_, ?_, ?_⟩
  · simp only [isWhitespaceChar, Bool.or_eq_false_iff]
    exact ⟨⟨char_beq_false_of_toNat_ne (by omega), char_beq_false_of_toNat_ne (by omega)⟩,
      char_beq_false_of_toNat_ne (by omega)⟩
  all_goals exact char_beq_false_of_toNat_ne (by omega)

/-- A letter or underscore (the `'a'..='z' | 'A'..='Z' | '_'` match arm)
matches none of the match arms that precede it in the `match c` of line 42. -/
theorem identStart_entry {c : Char} (h : isIdentStart c = true) :
    isWhitespaceChar c = false ∧ (c == '(') = false ∧ (c == ')') = false ∧
    (c == '{') = false ∧ (c == '}') = false ∧ (c == ';') = false ∧
    rustIsNumeric c = false := by
  have hn : (97 ≤ c.toNat ∧ c.toNat ≤ 122) ∨ (65 ≤ c.toNat ∧ c.toNat ≤ 90) ∨ c.toNat = 95 := by
    simp only [isIdentStart, rustIsAlphabetic, Bool.or_eq_true, decide_eq_true_eq,
      beq_iff_eq] at h
    rcases h with h | h
    · tauto
    · right; right; rw [h]; rfl
  have e1 : (' ').toNat = 32 := rfl
  have e2 : ('\n').toNat = 10 := rfl
  have e3 : ('\t').toNat = 9 := rfl
  have e4 : ('(').toNat = 40 := rfl
  have e5 : (')').toNat = 41 := rfl
  have e6 : ('{').toNat = 123 := rfl
  have e7 : ('}').toNat = 125 := rfl
  have e8 : (';').toNat = 59 := rfl
  refine ⟨?_, ?_, ?_, ?_, ?_, ?_, ?_⟩
  · simp only [isWhitespaceChar, Bool.or_eq_false_iff]
    exact ⟨⟨char_beq_false_of_toNat_ne (by omega), char_beq_false_of_toNat_ne (by omega)⟩,
      char_beq_false_of_toNat_ne (by omega)⟩
  · exact char_beq_false_of_toNat_ne (by omega)
  · exact char_beq_false_of_toNat_ne (by omega)
  · exact char_beq_false_of_toNat_ne (by omega)
  · exact char_beq_false_of_toNat_ne (by omega)
  · exact char_beq_false_of_toNat_ne (by omega)
  · simp only [rustIsNumeric, decide_eq_false_iff_not]
    omega

/-- An identifier-start character is also an identifier-continuation
character: the first iteration of the consumption loop of lines 88-95 accepts
the character that selected the match arm. -/
theorem isIdentChar_of_isIdentStart {c : Char} (h : isIdentStart c = true) :
    isIdentChar c = true := by
  simp only [isIdentStart, Bool.or_eq_true] at h
  simp only [isIdentChar, rustIsAlphanumeric, Bool.or_eq_true]
  tauto

theorem scanStep_whitespace {c : Char} (cs : List Char) (h : isWhitespaceChar c = true) :
    scanStep c cs = .ok (none, cs) := by
  simp [scanStep, h]

theorem scanStep_openParen (cs : List Char) :
    scanStep '(' cs = .ok (some .OpenParenthesis, cs) := by
  simp [scanStep, isWhitespaceChar]

theorem scanStep_closeParen (cs : List Char) :
    scanStep ')' cs = .ok (some .CloseParenthesis, cs) := by
  simp [scanStep, isWhitespaceChar]

theorem scanStep_openBrace (cs : List Char) :
    scanStep '{' cs = .ok (some .OpenBrace, cs) := by
  simp [scanStep, isWhitespaceChar]

theorem scanStep_closeBrace (cs : List Char) :
    scanStep '}' cs = .ok (some .CloseBrace, cs) := by
  simp [scanStep, isWhitespaceChar]

theorem scanStep_semicolon (cs : List Char) :
    scanStep ';' cs = .ok (some .Semicolon, cs) := by
  simp [scanStep, isWhitespaceChar]

theorem scanStep_numeric {c : Char} (cs : List Char) (h : rustIsNumeric c = true) :
    scanStep c cs =
      match (cs.dropWhile rustIsNumeric).head? with
      | some next =>
        if rustIsAlphabetic next || next == '_' then
          .error (.numericFollowedByIdent (c :: cs.takeWhile rustIsNumeric) next)
        else
          .ok (some (.Constant (c :: cs.takeWhile rustIsNumeric)), cs.dropWhile rustIsNumeric)
      | none =>
        .ok (some (.Constant (c :: cs.takeWhile rustIsNumeric)), cs.dropWhile rustIsNumeric) := by
  obtain ⟨hws, h1, h2, h3, h4, h5⟩ := numeric_entry h
  simp [scanStep, hws, h1, h2, h3, h4, h5, h]

theorem scanStep_identStart {c : Char} (cs : List Char) (h : isIdentStart c = true) :
    scanStep c cs =
      match classifyIdent c (cs.takeWhile isIdentChar) with
      | .error e => .error e
      | .ok t => .ok (some t, cs.dropWhile isIdentChar) := by
  obtain ⟨hws, h1, h2, h3, h4, h5, hnum⟩ := identStart_entry h
  simp [scanStep, hws, h1, h2, h3, h4, h5, hnum, h]

theorem scanStep_slash (cs : List Char) :
    scanStep '/' cs =
      match cs with
      | [] => .ok (none, [])
      | next :: csTail =>
        if next == '/' then .ok (none, skipLineComment (next :: csTail))
        else if next == '*' then .ok (none, skipBlockComment csTail)
        else .error .unhandledSlash := by
  simp [scanStep, isWhitespaceChar, rustIsNumeric, isIdentStart, rustIsAlphabetic]

theorem scanStep_invalid {c : Char} (cs : List Char)
    (hws : isWhitespaceChar c = false) (h1 : (c == '(') = false) (h2 : (c == ')') = false)
    (h3 : (c == '{') = false) (h4 : (c == '}') = false) (h5 : (c == ';') = false)
    (hnum : rustIsNumeric c = false) (hid : isIdentStart c = false)
    (hsl : (c == '/') = false) :
    scanStep c cs = .error (.invalidCharacter c) := by
  simp [scanStep, hws, h1, h2, h3, h4, h5, hnum, hid, hsl]

/-- Every successful loop iteration leaves a remaining stream no longer than
the stream after the peeked character: the cursor strictly advances. -/
theorem scanStep_rest_length {c : Char} {cs : List Char} {ot : Option Token}
    {rest : List Char} (h : scanStep c cs = .ok (ot, rest)) :
    rest.length ≤ cs.length := by
  by_cases hws : isWhitespaceChar c = true
  · rw [scanStep_whitespace cs hws] at h; cases h; exact Nat.le_refl _
  by_cases hp1 : c = '('
  · subst hp1; rw [scanStep_openParen cs] at h; cases h; exact Nat.le_refl _
  by_cases hp2 : c = ')'
  · subst hp2; rw [scanStep_closeParen cs] at h; cases h; exact Nat.le_refl _
  by_cases hp3 : c = '{'
  · subst hp3; rw [scanStep_openBrace cs] at h; cases h; exact Nat.le_refl _
  by_cases hp4 : c = '}'
  · subst hp4; rw [scanStep_closeBrace cs] at h; cases h; exact Nat.le_refl _
  by_cases hp5 : c = ';'
  · subst hp5; rw [scanStep_semicolon cs] at h; cases h; exact Nat.le_refl _
  by_cases hnum : rustIsNumeric c = true
  · rw [scanStep_numeric cs hnum] at h
    split at h
    · split at h
      · cases h
      · cases h; exact dropWhile_length_le _ _
    · cases h; exact dropWhile_length_le _ _
  by_cases hid : isIdentStart c = true
  · rw [scanStep_identStart cs hid] at h
    split at h
    · cases h
    · cases h; exact dropWhile_length_le _ _
  by_cases hsl : c = '/'
  · subst hsl
    rw [scanStep_slash cs] at h
    match cs with
    | [] => cases h; exact Nat.le_refl _
    | next :: csTail =>
      dsimp only at h
      split at h
      · cases h; exact skipLineComment_length_le _
      · split at h
        · cases h
          exact Nat.le_succ_of_le (skipBlockComment_length_le csTail)
        · cases h
  · rw [scanStep_invalid cs (by simpa using hws)
      (by simpa using hp1) (by simpa using hp2) (by simpa using hp3)
      (by simpa using hp4) (by simpa using hp5) (by simpa using hnum)
      (by simpa using hid) (by simpa using hsl)] at h
    cases h

/-- The scanning loop, lines 41-149: iterate `scanStep` until the input is
exhausted, accumulating the pushed tokens in order, or stop at the first
error.  On success the Rust function prints the tokens and returns `Ok(())`;
the token vector it accumulated is the value modelled here. -/
def scan (input : List Char) : Except LexError (List Token) :=
  match input with
  | [] => .ok []
  | c :: cs =>
    match h : scanStep c cs with
    | .error e => .error e
    | .ok (ot, rest) =>
      match scan rest with
      | .error e => .error e
      | .ok ts => .ok (ot.toList ++ ts)
termination_by input.length
decreasing_by
  simp only [List.length_cons]
  exact Nat.lt_succ_of_le (scanStep_rest_length h)

/-- Scanning the contents of the source file, given as a string (the
file-reading prologue of `fn lexer` is I/O glue outside the scanner). -/
def scanStr (s : String) : Except LexError (List Token) :=
  scan s.data

theorem scan_nil : scan [] = .ok [] := by rw [scan]

theorem scan_cons_error {c : Char} {cs : List Char} {e : LexError}
    (h : scanStep c cs = .error e) : scan (c :: cs) = .error e := by
  conv_lhs => rw [scan]
  split
  · rename_i h'; rw [h] at h'; cases h'; rfl
  · rename_i h'; rw [h] at h'; cases h'

theorem scan_cons_ok {c : Char} {cs : List Char} {ot : Option Token} {rest : List Char}
    (h : scanStep c cs = .ok (ot, rest)) :
    scan (c :: cs) = match scan rest with
      | .error e => .error e
      | .ok ts => .ok (ot.toList ++ ts) := by
  conv_lhs => rw [scan]
  split
  · rename_i h'; rw [h] at h'; cases h'
  · rename_i ot' rest' h'; rw [h] at h'; cases h'; rfl

theorem scan_cons_ok_none {c : Char} {cs rest : List Char}
    (h : scanStep c cs = .ok (none, rest)) : scan (c :: cs) = scan rest := by
  rw [scan_cons_ok h]
  cases scan rest <;> rfl

theorem scan_cons_ok_some {c : Char} {cs rest : List Char} {t : Token}
    (h : scanStep c cs = .ok (some t, rest)) :
    scan (c :: cs) = (scan rest).map (fun ts => t :: ts) := by
  rw [scan_cons_ok h]
  cases scan rest <;> rfl

/-- The scanning loop with an explicit iteration budget: `none` means the
budget was exhausted before the input was.  One unit of fuel is one iteration
of the `while let` loop. -/
def scanBounded (fuel : Nat) (input : List Char) : Option (Except LexError (List Token)) :=
  match input with
  | [] => some (.ok [])
  | c :: cs =>
    match fuel with
    | 0 => none
    | fuel' + 1 =>
      match scanStep c cs with
      | .error e => some (.error e)
      | .ok (ot, rest) =>
        match scanBounded fuel' rest with
        | none => none
        | some (.error e) => some (.error e)
        | some (.ok ts) => some (.ok (ot.toList ++ ts))

/-- A budget of one iteration per input character suffices: the loop
terminates, agreeing with `scan`. -/
theorem scanBounded_eq_scan :
    ∀ (fuel : Nat) (s : List Char), s.length ≤ fuel → scanBounded fuel s = some (scan s) := by
  intro fuel
  induction fuel with
  | zero =>
    intro s hs
    have : s = [] := List.eq_nil_of_length_eq_zero (Nat.le_zero.mp hs)
    subst this
    simp [scanBounded, scan_nil]
  | succ n ih =>
    intro s hs
    match s with
    | [] => simp [scanBounded, scan_nil]
    | c :: cs =>
      simp only [scanBounded]
      cases hstep : scanStep c cs with
      | error e => rw [scan_cons_error hstep]
      | ok pr =>
        obtain ⟨ot, rest⟩ := pr
        dsimp only
        have hrest : rest.length ≤ n := by
          have h1 := scanStep_rest_length hstep
          have h2 : cs.length ≤ n := by
            simpa [Nat.succ_le_succ_iff] using hs
          omega
        rw [ih rest hrest, scan_cons_ok hstep]
        cases scan rest <;> rfl


/-- Well-formedness of a token as the scanner can produce it: an `Identifier`
starts with a letter or underscore, consists of identifier characters, and is
neither `"_"` nor a keyword; a `Constant` is a non-empty digit run. -/
def wfToken : Token → Bool
  | .Identifier s =>
    match s with
    | [] => false
    | first :: _ =>
      isIdentStart first && s.all isIdentChar && !(s == ['_']) &&
        !(s == "int".data) && !(s == "void".data) && !(s == "return".data)
  | .Constant s => !s.isEmpty && s.all rustIsNumeric
  | _ => true

/-- Every token pushed by a loop iteration is well-formed. -/
theorem scanStep_wf {c : Char} {cs : List Char} {ot : Option Token} {rest : List Char}
    (h : scanStep c cs = .ok (ot, rest)) : ∀ t, ot = some t → wfToken t = true := by
  by_cases hws : isWhitespaceChar c = true
  · rw [scanStep_whitespace cs hws] at h; cases h; intro t ht; cases ht
  by_cases hp1 : c = '('
  · subst hp1; rw [scanStep_openParen cs] at h; cases h; intro t ht; cases ht; rfl
  by_cases hp2 : c = ')'
  · subst hp2; rw [scanStep_closeParen cs] at h; cases h; intro t ht; cases ht; rfl
  by_cases hp3 : c = '{'
  · subst hp3; rw [scanStep_openBrace cs] at h; cases h; intro t ht; cases ht; rfl
  by_cases hp4 : c = '}'
  · subst hp4; rw [scanStep_closeBrace cs] at h; cases h; intro t ht; cases ht; rfl
  by_cases hp5 : c = ';'
  · subst hp5; rw [scanStep_semicolon cs] at h; cases h; intro t ht; cases ht; rfl
  by_cases hnum : rustIsNumeric c = true
  · rw [scanStep_numeric cs hnum] at h
    have hconst : ∀ t, some (Token.Constant (c :: cs.takeWhile rustIsNumeric)) = some t →
        wfToken t = true := by
      intro t ht
      cases ht
      simp only [wfToken, Bool.and_eq_true, List.all_eq_true, List.isEmpty_cons,
        Bool.not_false]
      refine ⟨trivial, ?_⟩
      intro x hx
      rcases List.mem_cons.mp hx with hx | hx
      · subst hx; exact hnum
      · exact List.mem_takeWhile_imp hx
    split at h
    · split at h
      · cases h
      · cases h; exact hconst
    · cases h; exact hconst
  by_cases hid : isIdentStart c = true
  · rw [scanStep_identStart cs hid] at h
    split at h
    · cases h
    · rename_i t' hcl
      cases h
      intro t ht
      cases ht
      simp only [classifyIdent] at hcl
      split at hcl
      · cases hcl
      · split at hcl
        · cases hcl
        · split at hcl
          · cases hcl
          · rename_i hnum9 hund hillegal
            split at hcl
            · cases hcl; rfl
            · split at hcl
              · cases hcl; rfl
              · split at hcl
                · cases hcl; rfl
                · rename_i hkw1 hkw2 hkw3
                  cases hcl
                  simp only [wfToken, Bool.and_eq_true, List.all_eq_true,
                    Bool.not_eq_true', beq_eq_false_iff_ne, ne_eq]
                  refine ⟨⟨⟨⟨⟨hid, ?_⟩, hund⟩, hkw1⟩, hkw2⟩, hkw3⟩
                  intro x hx
                  rcases List.mem_cons.mp hx with hx | hx
                  · subst hx; exact isIdentChar_of_isIdentStart hid
                  · exact List.mem_takeWhile_imp hx
  by_cases hsl : c = '/'
  · subst hsl
    rw [scanStep_slash cs] at h
    match cs with
    | [] => cases h; intro t ht; cases ht
    | next :: csTail =>
      dsimp only at h
      split at h
      · cases h; intro t ht; cases ht
      · split at h
        · cases h; intro t ht; cases ht
        · cases h
  · rw [scanStep_invalid cs (by simpa using hws)
      (by simpa using hp1) (by simpa using hp2) (by simpa using hp3)
      (by simpa using hp4) (by simpa using hp5) (by simpa using hnum)
      (by simpa using hid) (by simpa using hsl)] at h
    cases h


/-- The two defensive error sites inside the identifier rule — line 101
("identifier starts with a number") and line 111 ("invalid identifier") —
are unreachable: no loop iteration ever produces either error. -/
theorem scanStep_no_defensive {c : Char} {cs : List Char} {e : LexError}
    (h : scanStep c cs = .error e) :
    (∀ id, e ≠ .identifierStartsWithNumber id) ∧ (∀ id, e ≠ .invalidIdentifier id) := by
  by_cases hws : isWhitespaceChar c = true
  · rw [scanStep_whitespace cs hws] at h; cases h
  by_cases hp1 : c = '('
  · subst hp1; rw [scanStep_openParen cs] at h; cases h
  by_cases hp2 : c = ')'
  · subst hp2; rw [scanStep_closeParen cs] at h; cases h
  by_cases hp3 : c = '{'
  · subst hp3; rw [scanStep_openBrace cs] at h; cases h
  by_cases hp4 : c = '}'
  · subst hp4; rw [scanStep_closeBrace cs] at h; cases h
  by_cases hp5 : c = ';'
  · subst hp5; rw [scanStep_semicolon cs] at h; cases h
  by_cases hnum : rustIsNumeric c = true
  · rw [scanStep_numeric cs hnum] at h
    split at h
    · split at h
      · cases h
        exact ⟨(fun id hne => by cases hne), (fun id hne => by cases hne)⟩
      · cases h
    · cases h
  by_cases hid : isIdentStart c = true
  · rw [scanStep_identStart cs hid] at h
    split at h
    · rename_i e' hcl
      cases h
      simp only [classifyIdent] at hcl
      split at hcl
      · rename_i hnum9
        exact absurd hnum9 (by simp [(identStart_entry hid).2.2.2.2.2.2])
      · split at hcl
        · cases hcl
          exact ⟨(fun id hne => by cases hne), (fun id hne => by cases hne)⟩
        · split at hcl
          · rename_i hillegal
            exfalso
            simp only [List.any_eq_true, Bool.not_eq_true',
              Bool.or_eq_false_iff] at hillegal
            obtain ⟨x, hx, hx1, hx2⟩ := hillegal
            have hxid : isIdentChar x = true := by
              rcases List.mem_cons.mp hx with hx | hx
              · subst hx; exact isIdentChar_of_isIdentStart hid
              · exact List.mem_takeWhile_imp hx
            simp [isIdentChar, hx1, hx2] at hxid
          · split at hcl
            · cases hcl
            · split at hcl
              · cases hcl
              · split at hcl
                · cases hcl
                · cases hcl
    · cases h
  by_cases hsl : c = '/'
  · subst hsl
    rw [scanStep_slash cs] at h
    match cs with
    | [] => cases h
    | next :: csTail =>
      dsimp only at h
      split at h
      · cases h
      · split at h
        · cases h
        · cases h
          exact ⟨(fun id hne => by cases hne), (fun id hne => by cases hne)⟩
  · rw [scanStep_invalid cs (by simpa using hws)
      (by simpa using hp1) (by simpa using hp2) (by simpa using hp3)
      (by simpa using hp4) (by simpa using hp5) (by simpa using hnum)
      (by simpa using hid) (by simpa using hsl)] at h
    cases h
    exact ⟨(fun id hne => by cases hne), (fun id hne => by cases hne)⟩

/-- Every token of a successful scan is well-formed. -/
theorem scan_tokens_wf : ∀ (s : List Char) (ts : List Token), scan s = .ok ts →
    ∀ t ∈ ts, wfToken t = true := by
  have key : ∀ (n : Nat) (s : List Char), s.length ≤ n → ∀ ts, scan s = .ok ts →
      ∀ t ∈ ts, wfToken t = true := by
    intro n
    induction n with
    | zero =>
      intro s hs ts h
      have : s = [] := List.eq_nil_of_length_eq_zero (Nat.le_zero.mp hs)
      subst this
      rw [scan_nil] at h
      cases h
      intro t ht
      cases ht
    | succ n ih =>
      intro s hs ts h
      match s with
      | [] =>
        rw [scan_nil] at h
        cases h
        intro t ht
        cases ht
      | c :: cs =>
        cases hstep : scanStep c cs with
        | error e => rw [scan_cons_error hstep] at h; cases h
        | ok pr =>
          obtain ⟨ot, rest⟩ := pr
          rw [scan_cons_ok hstep] at h
          cases hrec : scan rest with
          | error e => rw [hrec] at h; cases h
          | ok ts' =>
            rw [hrec] at h
            cases h
            intro t ht
            rcases List.mem_append.mp ht with ht | ht
            · cases hot : ot with
              | none => subst hot; cases ht
              | some t0 =>
                subst hot
                rcases List.mem_singleton.mp ht with rfl
                exact scanStep_wf hstep t rfl
            · have hrest : rest.length ≤ n := by
                have h1 := scanStep_rest_length hstep
                simp only [List.length_cons, Nat.succ_le_succ_iff] at hs
                omega
              exact ih rest hrest ts' hrec t ht
  intro s ts h
  exact key s.length s (Nat.le_refl _) ts h

/-- A full scan never fails with either defensive identifier error. -/
theorem scan_no_defensive : ∀ (s : List Char) (e : LexError), scan s = .error e →
    (∀ id, e ≠ .identifierStartsWithNumber id) ∧ (∀ id, e ≠ .invalidIdentifier id) := by
  have key : ∀ (n : Nat) (s : List Char), s.length ≤ n → ∀ e, scan s = .error e →
      (∀ id, e ≠ .identifierStartsWithNumber id) ∧ (∀ id, e ≠ .invalidIdentifier id) := by
    intro n
    induction n with
    | zero =>
      intro s hs e h
      have : s = [] := List.eq_nil_of_length_eq_zero (Nat.le_zero.mp hs)
      subst this
      rw [scan_nil] at h
      cases h
    | succ n ih =>
      intro s hs e h
      match s with
      | [] => rw [scan_nil] at h; cases h
      | c :: cs =>
        cases hstep : scanStep c cs with
        | error e' =>
          rw [scan_cons_error hstep] at h
          cases h
          exact scanStep_no_defensive hstep
        | ok pr =>
          obtain ⟨ot, rest⟩ := pr
          rw [scan_cons_ok hstep] at h
          cases hrec : scan rest with
          | error e' =>
            rw [hrec] at h
            cases h
            have hrest : rest.length ≤ n := by
              have h1 := scanStep_rest_length hstep
              simp only [List.length_cons, Nat.succ_le_succ_iff] at hs
              omega
            exact ih rest hrest _ hrec
          | ok ts' => rw [hrec] at h; cases h
  intro s e h
  exact key s.length s (Nat.le_refl _) e h

/-- The minimal source form of each token (spec §8's round-trip rendering):
keywords and punctuation render to their fixed spellings, identifiers and
constants to their captured text. -/
def render : Token → List Char
  | .Identifier name => name
  | .Constant digits => digits
  | .IntKeyword => "int".data
  | .VoidKeyword => "void".data
  | .ReturnKeyword => "return".data
  | .OpenParenthesis => ['(']
  | .CloseParenthesis => [')']
  | .OpenBrace => ['{']
  | .CloseBrace => ['}']
  | .Semicolon => [';']

/-- Tokens rendered and concatenated with single spaces between consecutive
tokens (no trailing space). -/
def renderAll : List Token → List Char
  | [] => []
  | [t] => render t
  | t :: ts => render t ++ ' ' :: renderAll ts

/-- Tokens rendered with a single space after every token. -/
def renderAllSp : List Token → List Char
  | [] => []
  | t :: ts => render t ++ ' ' :: renderAllSp ts

theorem takeWhile_append_cons {α : Type} (p : α → Bool) {l : List α} (b : α) (r : List α)
    (hl : ∀ x ∈ l, p x = true) (hb : p b = false) :
    (l ++ b :: r).takeWhile p = l := by
  induction l with
  | nil => simp [List.takeWhile_cons, hb]
  | cons a l ih =>
    have ha : p a = true := hl a (List.mem_cons_self a l)
    simp [List.takeWhile_cons, ha, ih (fun x hx => hl x (List.mem_cons_of_mem a hx))]

theorem dropWhile_append_cons {α : Type} (p : α → Bool) {l : List α} (b : α) (r : List α)
    (hl : ∀ x ∈ l, p x = true) (hb : p b = false) :
    (l ++ b :: r).dropWhile p = b :: r := by
  induction l with
  | nil => simp [List.dropWhile_cons, hb]
  | cons a l ih =>
    have ha : p a = true := hl a (List.mem_cons_self a l)
    simp [List.dropWhile_cons, ha, ih (fun x hx => hl x (List.mem_cons_of_mem a hx))]

theorem scan_space (s : List Char) : scan (' ' :: s) = scan s :=
  scan_cons_ok_none (scanStep_whitespace s (by decide))

/-- Scanning an identifier-shaped lexeme placed at the head of the input and
followed by a space or the end of input: the scanner consumes exactly the
lexeme, emits the token its classification yields, and continues. -/
theorem scan_identLexeme {first : Char} {tl suffix : List Char} {t : Token}
    (hstart : isIdentStart first = true)
    (hall : ∀ x ∈ first :: tl, isIdentChar x = true)
    (hcl : classifyIdent first tl = .ok t)
    (hb : suffix = [] ∨ ∃ s2, suffix = ' ' :: s2) :
    scan ((first :: tl) ++ suffix) = (scan suffix).map (fun ts => t :: ts) := by
  have htl : ∀ x ∈ tl, isIdentChar x = true :=
    fun x hx => hall x (List.mem_cons_of_mem first hx)
  have htw : (tl ++ suffix).takeWhile isIdentChar = tl := by
    rcases hb with rfl | ⟨s2, rfl⟩
    · rw [List.append_nil]
      exact List.takeWhile_eq_self_iff.mpr htl
    · exact takeWhile_append_cons isIdentChar ' ' s2 htl (by decide)
  have hdw : (tl ++ suffix).dropWhile isIdentChar = suffix := by
    rcases hb with rfl | ⟨s2, rfl⟩
    · rw [List.append_nil]
      exact List.dropWhile_eq_nil_iff.mpr (fun x hx => htl x hx)
    · exact dropWhile_append_cons isIdentChar ' ' s2 htl (by decide)
  have hstep : scanStep first (tl ++ suffix) = .ok (some t, suffix) := by
    rw [scanStep_identStart (tl ++ suffix) hstart, htw, hdw, hcl]
  rw [List.cons_append]
  exact scan_cons_ok_some hstep

/-- Scanning a digit-run lexeme at the head of the input, followed by a space
or the end of input. -/
theorem scan_constLexeme {d : Char} {dl suffix : List Char}
    (hd : rustIsNumeric d = true)
    (hall : ∀ x ∈ d :: dl, rustIsNumeric x = true)
    (hb : suffix = [] ∨ ∃ s2, suffix = ' ' :: s2) :
    scan ((d :: dl) ++ suffix) =
      (scan suffix).map (fun ts => Token.Constant (d :: dl) :: ts) := by
  have hdl : ∀ x ∈ dl, rustIsNumeric x = true :=
    fun x hx => hall x (List.mem_cons_of_mem d hx)
  have htw : (dl ++ suffix).takeWhile rustIsNumeric = dl := by
    rcases hb with rfl | ⟨s2, rfl⟩
    · rw [List.append_nil]
      exact List.takeWhile_eq_self_iff.mpr hdl
    · exact takeWhile_append_cons rustIsNumeric ' ' s2 hdl (by decide)
  have hdw : (dl ++ suffix).dropWhile rustIsNumeric = suffix := by
    rcases hb with rfl | ⟨s2, rfl⟩
    · rw [List.append_nil]
      exact List.dropWhile_eq_nil_iff.mpr (fun x hx => hdl x hx)
    · exact dropWhile_append_cons rustIsNumeric ' ' s2 hdl (by decide)
  have hstep : scanStep d (dl ++ suffix) = .ok (some (.Constant (d :: dl)), suffix) := by
    rw [scanStep_numeric (dl ++ suffix) hd, htw, hdw]
    rcases hb with rfl | ⟨s2, rfl⟩
    · rfl
    · rfl
  rw [List.cons_append]
  exact scan_cons_ok_some hstep

/-- Scanning one rendered well-formed token followed by a space or the end of
the input consumes exactly the rendered text and reproduces the token. -/
theorem scan_render_append {t : Token} {suffix : List Char}
    (hwf : wfToken t = true)
    (hb : suffix = [] ∨ ∃ s2, suffix = ' ' :: s2) :
    scan (render t ++ suffix) = (scan suffix).map (fun ts => t :: ts) := by
  cases t with
  | Identifier s =>
    match s with
    | [] => simp [wfToken] at hwf
    | first :: tl =>
      simp only [wfToken, Bool.and_eq_true, List.all_eq_true, Bool.not_eq_true',
        beq_eq_false_iff_ne, ne_eq] at hwf
      obtain ⟨⟨⟨⟨⟨hstart, hall⟩, hund⟩, hkw1⟩, hkw2⟩, hkw3⟩ := hwf
      have hcl : classifyIdent first tl = .ok (.Identifier (first :: tl)) := by
        have hnum : rustIsNumeric first = false := (identStart_entry hstart).2.2.2.2.2.2
        have hleg : ((first :: tl).any fun ch => !(rustIsAlphanumeric ch || ch == '_')) =
            false := by
          simp only [List.any_eq_false, Bool.not_eq_true', Bool.or_eq_false_iff]
          intro x hx
          have := hall x hx
          simp only [isIdentChar, rustIsAlphanumeric, Bool.or_eq_true] at this
          rcases this with (h1 | h1) | h1
          · simp [rustIsAlphanumeric, h1]
          · simp [rustIsAlphanumeric, h1]
          · simp [h1]
        simp only [classifyIdent, hnum, Bool.false_eq_true, if_false, hund, if_neg,
          hleg, hkw1, hkw2, hkw3]
      exact scan_identLexeme hstart hall hcl hb
  | Constant s =>
    match s with
    | [] => simp [wfToken] at hwf
    | d :: dl =>
      simp only [wfToken, Bool.and_eq_true, List.all_eq_true] at hwf
      obtain ⟨-, hall⟩ := hwf
      exact scan_constLexeme (hall d (List.mem_cons_self d dl)) hall hb
  | IntKeyword =>
    exact @scan_identLexeme 'i' ['n', 't'] suffix Token.IntKeyword (by decide)
      (by decide) rfl hb
  | VoidKeyword =>
    exact @scan_identLexeme 'v' ['o', 'i', 'd'] suffix Token.VoidKeyword (by decide)
      (by decide) rfl hb
  | ReturnKeyword =>
    exact @scan_identLexeme 'r' ['e', 't', 'u', 'r', 'n'] suffix Token.ReturnKeyword (by decide)
      (by decide) rfl hb
  | OpenParenthesis => exact scan_cons_ok_some (scanStep_openParen suffix)
  | CloseParenthesis => exact scan_cons_ok_some (scanStep_closeParen suffix)
  | OpenBrace => exact scan_cons_ok_some (scanStep_openBrace suffix)
  | CloseBrace => exact scan_cons_ok_some (scanStep_closeBrace suffix)
  | Semicolon => exact scan_cons_ok_some (scanStep_semicolon suffix)

/-- Scanning a space-terminated rendering of well-formed tokens prepends
exactly those tokens to the scan of the remaining input. -/
theorem scan_renderAllSp (ts : List Token) (suffix : List Char)
    (h : ∀ t ∈ ts, wfToken t = true) :
    scan (renderAllSp ts ++ suffix) = (scan suffix).map (fun l => ts ++ l) := by
  induction ts with
  | nil =>
    simp only [renderAllSp, List.nil_append]
    cases scan suffix <;> rfl
  | cons t ts ih =>
    have hstep : scan (render t ++ ' ' :: (renderAllSp ts ++ suffix)) =
        (scan (' ' :: (renderAllSp ts ++ suffix))).map (fun l => t :: l) :=
      scan_render_append (h t (List.mem_cons_self t ts)) (Or.inr ⟨_, rfl⟩)
    simp only [renderAllSp, List.append_assoc, List.cons_append]
    rw [hstep, scan_space, ih (fun x hx => h x (List.mem_cons_of_mem t hx))]
    cases scan suffix <;> rfl

/-- Scanning the space-separated rendering of well-formed tokens reproduces
exactly those tokens. -/
theorem scan_renderAll (ts : List Token) (h : ∀ t ∈ ts, wfToken t = true) :
    scan (renderAll ts) = .ok ts := by
  induction ts with
  | nil => exact scan_nil
  | cons t ts ih =>
    cases ts with
    | nil =>
      have hstep : scan (render t ++ []) = (scan []).map (fun l => t :: l) :=
        scan_render_append (h t (List.mem_cons_self t [])) (Or.inl rfl)
      show scan (render t) = .ok [t]
      rw [← List.append_nil (render t), hstep, scan_nil]
      rfl
    | cons t2 ts2 =>
      have hstep : scan (render t ++ ' ' :: renderAll (t2 :: ts2)) =
          (scan (' ' :: renderAll (t2 :: ts2))).map (fun l => t :: l) :=
        scan_render_append (h t (List.mem_cons_self t (t2 :: ts2))) (Or.inr ⟨_, rfl⟩)
      show scan (render t ++ ' ' :: renderAll (t2 :: ts2)) = .ok (t :: t2 :: ts2)
      rw [hstep, scan_space, ih (fun x hx => h x (List.mem_cons_of_mem t hx))]
      rfl

/-- If the stream holds no `*/` pair, the block-comment loop consumes it all. -/
theorem skipBlockComment_of_no_terminator {l : List Char} (h : hasTerminator l = false) :
    skipBlockComment l = [] := by
  induction l with
  | nil => rfl
  | cons c cs ih =>
    simp only [hasTerminator] at h
    simp only [skipBlockComment]
    split
    · rename_i hcond; rw [if_pos hcond] at h; cases h
    · rename_i hcond; rw [if_neg hcond] at h; exact ih h

/-- A `/*` with no closing `*/` swallows the rest of the input and the scan
of the comment onwards succeeds with no further tokens. -/
theorem scan_unterminated_comment {rest : List Char} (h : hasTerminator rest = false) :
    scan ('/' :: '*' :: rest) = .ok [] := by
  have hstep : scanStep '/' ('*' :: rest) = .ok (none, skipBlockComment rest) := by
    rw [scanStep_slash]
    simp
  rw [scan_cons_ok_none hstep, skipBlockComment_of_no_terminator h, scan_nil]

/-- Evaluation bridge: a fuelled run with fuel equal to the input length
computes the value of `scan`. -/
theorem scan_eval {s : List Char} {r : Except LexError (List Token)}
    (h : scanBounded s.length s = some r) : scan s = r := by
  have h2 := scanBounded_eq_scan s.length s (Nat.le_refl _)
  rw [h] at h2
  exact (Option.some.inj h2).symm

deriving instance DecidableEq for Except

/-! ## The claims -/

/-- C1.  The specification asserts that the single-character input `/` (a
slash not followed by `/` or `*`) fails with an UnsupportedOperator error.
The code does not: the slash arm consumes the `/`, the `if let Some(&next) =
chars.peek()` of line 124 finds the stream empty and is skipped entirely, the
loop exits, and the lexer succeeds having produced no token.  The trailing
slash is silently swallowed — contradicting both the spec's stated rule and
the scanner's own design of rejecting a bare `/` (line 141). -/
theorem c1_bare_slash_at_eof_scans_ok : scanStr "/" = .ok [] :=
  scan_eval (by decide)

/-- C2.  The input `int main(void){return 2;}` scans to exactly the expected
ten-token sequence, in order. -/
theorem c2_int_main_scan :
    scanStr "int main(void)\x7breturn 2;\x7d" =
      .ok [.IntKeyword, .Identifier "main".data, .OpenParenthesis, .VoidKeyword,
        .CloseParenthesis, .OpenBrace, .ReturnKeyword, .Constant "2".data,
        .Semicolon, .CloseBrace] :=
  scan_eval (by decide)

/-- C3.  Round-trip idempotence: whenever a scan succeeds (which is the case
exactly for the inputs made of the supported vocabulary), rendering each
returned token to its minimal source form, concatenating with single spaces,
and scanning again yields the same token sequence. -/
theorem c3_roundtrip (s : List Char) (ts : List Token) (h : scan s = .ok ts) :
    scan (renderAll ts) = .ok ts :=
  scan_renderAll ts (scan_tokens_wf s ts h)

theorem c3_roundtrip_witness :
    scan (renderAll [Token.IntKeyword, Token.Identifier ['x'], Token.Semicolon]) =
      .ok [Token.IntKeyword, Token.Identifier ['x'], Token.Semicolon] :=
  c3_roundtrip "int x;".data _ (scan_eval (by decide))

/-- C4.  A maximal digit run at the head of the scanner's position that is
immediately followed by a letter or underscore makes the whole scan fail with
the error of line 80 — the spec's MalformedNumericLiteral — and no token
sequence is returned (the result is an error, not a list). -/
theorem c4_digits_then_identchar (ds : List Char) (c : Char) (rest : List Char)
    (hne : ds ≠ []) (hds : ∀ d ∈ ds, rustIsNumeric d = true)
    (hc : rustIsAlphabetic c = true ∨ c = '_') :
    scan (ds ++ c :: rest) = .error (.numericFollowedByIdent ds c) ∧
      (LexError.numericFollowedByIdent ds c).category = .MalformedNumericLiteral := by
  cases ds with
  | nil => exact absurd rfl hne
  | cons d dl =>
    have hd : rustIsNumeric d = true := hds d (List.mem_cons_self d dl)
    have hdl : ∀ x ∈ dl, rustIsNumeric x = true :=
      fun x hx => hds x (List.mem_cons_of_mem d hx)
    have hstart : isIdentStart c = true := by
      simp only [isIdentStart, Bool.or_eq_true, beq_iff_eq]
      exact hc
    have hcn : rustIsNumeric c = false := (identStart_entry hstart).2.2.2.2.2.2
    have htw := takeWhile_append_cons rustIsNumeric c rest hdl hcn
    have hdw := dropWhile_append_cons rustIsNumeric c rest hdl hcn
    have hguard : (rustIsAlphabetic c || c == '_') = true := by
      simp only [Bool.or_eq_true, beq_iff_eq]
      exact hc
    have hstep : scanStep d (dl ++ c :: rest) =
        .error (.numericFollowedByIdent (d :: dl) c) := by
      rw [scanStep_numeric (dl ++ c :: rest) hd, htw, hdw]
      simp [hguard]
    constructor
    · rw [List.cons_append]
      exact scan_cons_error hstep
    · rfl

theorem c4_witness :
    scan ("123".data ++ 'a' :: "bc".data) =
        .error (.numericFollowedByIdent "123".data 'a') ∧
      (LexError.numericFollowedByIdent "123".data 'a').category =
        .MalformedNumericLiteral :=
  c4_digits_then_identchar "123".data 'a' "bc".data (by decide) (by decide)
    (Or.inl (by decide))

/-- C5.  Keyword precedence: `int`, `void`, `return` each scan to exactly one
keyword token (never an `Identifier`), while `integer` — a strict extension
of `int` — scans to exactly one `Identifier`, because the maximal identifier
run is consumed greedily first and the keyword lookup of lines 115-119 only
happens on the completed lexeme. -/
theorem c5_keyword_precedence :
    scanStr "int" = .ok [.IntKeyword] ∧ scanStr "void" = .ok [.VoidKeyword] ∧
      scanStr "return" = .ok [.ReturnKeyword] ∧
      scanStr "integer" = .ok [.Identifier "integer".data] :=
  ⟨scan_eval (by decide), scan_eval (by decide), scan_eval (by decide),
    scan_eval (by decide)⟩

/-- C6.  If the input ends inside a block comment (a `/*` never followed by a
closing `*/`), the scan silently terminates as if the comment and the input
ended normally: it succeeds with exactly the tokens gathered before the
comment, and no error of any kind is raised. -/
theorem c6_unterminated_comment (ts : List Token) (rest : List Char)
    (hwf : ∀ t ∈ ts, wfToken t = true) (hterm : hasTerminator rest = false) :
    scan (renderAllSp ts ++ '/' :: '*' :: rest) = .ok ts := by
  rw [scan_renderAllSp ts _ hwf, scan_unterminated_comment hterm]
  show Except.ok (ts ++ []) = Except.ok ts
  rw [List.append_nil]

theorem c6_unterminated_comment_witness :
    scan (renderAllSp [Token.IntKeyword] ++ '/' :: '*' :: "abc".data) =
      .ok [Token.IntKeyword] :=
  c6_unterminated_comment [Token.IntKeyword] "abc".data (by decide) (by decide)

/-- C7.  The defensive illegal-character guard of line 110: (i) on any
captured text containing a character outside the identifier class, with the
two earlier checks passing, the classification fails with the
InvalidIdentifier error of line 111; (ii) text produced by the consumption
rule of lines 88-95 consists only of identifier-class characters, so the
guard is unreachable for captured text; (iii) consequently no scan ever
returns the line-111 error. -/
theorem c7_defensive_identifier_guard :
    (∀ (first : Char) (tl : List Char),
        ((first :: tl).any fun ch => !(rustIsAlphanumeric ch || ch == '_')) = true →
        rustIsNumeric first = false → first :: tl ≠ ['_'] →
        classifyIdent first tl = .error (.invalidIdentifier (first :: tl))) ∧
    (∀ (first : Char) (cs : List Char), isIdentStart first = true →
        ∀ x ∈ first :: cs.takeWhile isIdentChar, isIdentChar x = true) ∧
    (∀ (s : List Char) (id : List Char), scan s ≠ .error (.invalidIdentifier id)) := by
  refine ⟨?_, ?_, ?_⟩
  · intro first tl hany hnum hund
    unfold classifyIdent
    rw [if_neg (by simp [hnum]), if_neg hund, if_pos hany]
  · intro first cs h x hx
    rcases List.mem_cons.mp hx with rfl | hx
    · exact isIdentChar_of_isIdentStart h
    · exact List.mem_takeWhile_imp hx
  · intro s id h
    exact (scan_no_defensive s _ h).2 id rfl

theorem c7_defensive_identifier_guard_witness :
    classifyIdent 'a' ['-'] = .error (.invalidIdentifier ['a', '-']) ∧
      isIdentChar 'b' = true ∧
      scan "_".data ≠ .error (.invalidIdentifier ['x']) :=
  ⟨c7_defensive_identifier_guard.1 'a' ['-'] (by decide) (by decide) (by decide),
    c7_defensive_identifier_guard.2.1 'a' ['b'] (by decide) 'b' (by decide),
    c7_defensive_identifier_guard.2.2 "_".data ['x']⟩

/-- C8.  The single-character input `_` fails with the standalone-underscore
error of line 106 — the spec's InvalidIdentifier category. -/
theorem c8_lone_underscore :
    scanStr "_" = .error .standaloneUnderscore ∧
      LexError.standaloneUnderscore.category = .InvalidIdentifier :=
  ⟨scan_eval (by decide), rfl⟩

/-- C9.  Termination: every successful loop iteration strictly shrinks the
remaining input (or the iteration returns with an error), so a budget of one
iteration per input character always suffices — the scan of any finite input
terminates. -/
theorem c9_termination :
    (∀ (c : Char) (cs : List Char) (ot : Option Token) (rest : List Char),
        scanStep c cs = .ok (ot, rest) → rest.length < (c :: cs).length) ∧
    (∀ (fuel : Nat) (s : List Char), s.length ≤ fuel →
        scanBounded fuel s = some (scan s)) := by
  constructor
  · intro c cs ot rest h
    simp only [List.length_cons]
    exact Nat.lt_succ_of_le (scanStep_rest_length h)
  · exact scanBounded_eq_scan

theorem c9_termination_witness :
    ([] : List Char).length < ('(' :: ([] : List Char)).length ∧
      scanBounded 3 "()".data = some (scan "()".data) :=
  ⟨c9_termination.1 '(' [] (some .OpenParenthesis) [] rfl,
    c9_termination.2 3 "()".data (by decide)⟩

/-- C10.  Whenever the letter/underscore arm of line 86 is entered, the
captured lexeme is non-empty with the triggering character as its head (so
the `unwrap` of line 100 cannot panic), and that character is not numeric —
hence the "identifier starts with a number" error branch of line 101 is
unreachable: no scan ever returns it. -/
theorem c10_capture_nonempty_head :
    (∀ (first : Char) (cs : List Char), isIdentStart first = true →
        (first :: cs.takeWhile isIdentChar).head? = some first ∧
          rustIsNumeric first = false) ∧
    (∀ (s : List Char) (num : List Char),
        scan s ≠ .error (.identifierStartsWithNumber num)) := by
  constructor
  · intro first cs h
    exact ⟨rfl, (identStart_entry h).2.2.2.2.2.2⟩
  · intro s num h
    exact (scan_no_defensive s _ h).1 num rfl

theorem c10_capture_nonempty_head_witness :
    ('a' :: List.takeWhile isIdentChar ['b']).head? = some 'a' ∧
      rustIsNumeric 'a' = false ∧
      scan "9x".data ≠ .error (.identifierStartsWithNumber ['9']) :=
  ⟨(c10_capture_nonempty_head.1 'a' ['b'] (by decide)).1,
    (c10_capture_nonempty_head.1 'a' ['b'] (by decide)).2,
    c10_capture_nonempty_head.2 "9x".data ['9']⟩

end CLexer
